import Mathlib

/-!
Shallow embedding of the loglm_collector classification and rule-resolution
core, translated from the Python sources:
  src/templates/store.py   (InstructionRule, Template)
  src/log_formatter.py     (INSTRUCTION_MAP, entry_to_loglm)
  src/collectors/general.py, src/collectors/gpu.py (_parse_level)
  src/collectors/scout.py  (_ERROR_RE keyword scan, _discover_log_files)
All text is handled as `List Char`; Python `str.lower()` is modelled with
`Char.toLower` (the repository's data is ASCII).
-/

/-- Lowercase a string to its character list, modelling Python
`str.lower()` applied before a comparison. -/
def lowerL (s : String) : List Char :=
  s.toList.map Char.toLower

/-- Model of Python list/str containment used as `needle in hay` for a
prefix test at the head of `hay`. -/
def startsWithL : List Char → List Char → Bool
  | [], _ => true
  | _ :: _, [] => false
  | n :: ns, h :: hs => (n == h) && startsWithL ns hs

/-- Model of Python substring containment `needle in hay`. -/
def containsL (hay needle : List Char) : Bool :=
  startsWithL needle hay ||
    (match hay with
     | [] => false
     | _ :: hs => containsL hs needle)

/-- Case-insensitive substring test, modelling
`needle.lower() in hay.lower()` from store.py line 41. -/
def containsCI (hay needle : String) : Bool :=
  containsL (lowerL hay) (lowerL needle)

/-!
Executable model of the external Python `re` module, as used by the
repository: `re.search(pattern, text, re.IGNORECASE)` over a core regex
subset (literal characters, '.', character classes, grouping including
non-capturing groups, alternation, and the quantifiers '*', '+', '?').
`re.compile` failures (`re.error`), such as the unbalanced pattern "(",
are modelled by the parser returning `Except.error`.
-/

/-- Abstract syntax of the modelled regex subset. -/
inductive Regex where
  | emp : Regex
  | chr : Char → Regex
  | any : Regex
  | cls : Bool → List Char → Regex
  | seq : Regex → Regex → Regex
  | alt : Regex → Regex → Regex
  | star : Regex → Regex
deriving Repr, DecidableEq

/-- Grammar level for the recursive-descent regex parser. -/
inductive PMode where
  | palt : PMode
  | pseq : PMode
  | patom : PMode
deriving Repr, DecidableEq

/-- Consume trailing quantifier characters after an atom. -/
def parseQuants : Nat → Regex → List Char → Except Unit (Regex × List Char)
  | 0, _, _ => .error ()
  | fuel + 1, r, cs =>
    match cs with
    | '*' :: rest => parseQuants fuel (.star r) rest
    | '+' :: rest => parseQuants fuel (.seq r (.star r)) rest
    | '?' :: rest => parseQuants fuel (.alt r .emp) rest
    | _ => .ok (r, cs)

/-- Consume the body of a character class up to the closing bracket; an
unterminated class is a compile error. -/
def parseClassBody : Nat → Bool → List Char → List Char → Except Unit (Regex × List Char)
  | 0, _, _, _ => .error ()
  | fuel + 1, neg, acc, cs =>
    match cs with
    | [] => .error ()
    | ']' :: rest => .ok (.cls neg acc.reverse, rest)
    | c :: rest => parseClassBody fuel neg (c :: acc) rest

/-- Recursive-descent parser for the regex subset; an unbalanced group,
a dangling escape, a leading quantifier or an unterminated class yields
`Except.error`, modelling `re.error`. -/
def parseR : Nat → PMode → List Char → Except Unit (Regex × List Char)
  | 0, _, _ => .error ()
  | fuel + 1, m, cs =>
    match m with
    | .palt => do
      let (r, rest) ← parseR fuel .pseq cs
      match rest with
      | '|' :: rest2 => do
        let (r2, rest3) ← parseR fuel .palt rest2
        .ok (.alt r r2, rest3)
      | _ => .ok (r, rest)
    | .pseq =>
      match cs with
      | [] => .ok (.emp, [])
      | ')' :: _ => .ok (.emp, cs)
      | '|' :: _ => .ok (.emp, cs)
      | _ => do
        let (r, rest) ← parseR fuel .patom cs
        let (r2, rest2) ← parseQuants fuel r rest
        let (r3, rest3) ← parseR fuel .pseq rest2
        .ok (.seq r2 r3, rest3)
    | .patom =>
      match cs with
      | [] => .error ()
      | '(' :: rest =>
        let body := match rest with
          | '?' :: ':' :: rest2 => rest2
          | _ => rest
        (do
          let (r, rest3) ← parseR fuel .palt body
          match rest3 with
          | ')' :: rest4 => .ok (r, rest4)
          | _ => .error ())
      | ')' :: _ => .error ()
      | '*' :: _ => .error ()
      | '+' :: _ => .error ()
      | '?' :: _ => .error ()
      | '|' :: _ => .error ()
      | '.' :: rest => .ok (.any, rest)
      | '[' :: rest =>
        (match rest with
         | '^' :: rest2 => parseClassBody fuel true [] rest2
         | _ => parseClassBody fuel false [] rest)
      | '\\' :: c :: rest => .ok (.chr c, rest)
      | '\\' :: [] => .error ()
      | c :: rest => .ok (.chr c, rest)

/-- Model of `re.compile(pattern)`: parse the whole pattern or fail. -/
def reCompile (pat : String) : Except Unit Regex :=
  match parseR (8 * pat.toList.length + 16) .palt pat.toList with
  | .error _ => .error ()
  | .ok (r, []) => .ok r
  | .ok (_, _ :: _) => .error ()

/-- Backtracking matcher for the regex subset, continuation passing,
case-insensitive, with fuel for termination. -/
def rmatch : Nat → Regex → List Char → (List Char → Bool) → Bool
  | 0, _, _, _ => false
  | fuel + 1, r, s, k =>
    match r with
    | .emp => k s
    | .chr c =>
      match s with
      | [] => false
      | x :: xs => (x.toLower == c.toLower) && k xs
    | .any =>
      match s with
      | [] => false
      | _ :: xs => k xs
    | .cls neg cs =>
      match s with
      | [] => false
      | x :: xs => (neg != cs.any (fun c => c.toLower == x.toLower)) && k xs
    | .seq a b => rmatch fuel a s (fun s2 => rmatch fuel b s2 k)
    | .alt a b => rmatch fuel a s k || rmatch fuel b s k
    | .star a =>
      rmatch fuel a s
        (fun s2 => if s2.length < s.length then rmatch fuel (.star a) s2 k else false)
      || k s

/-- Try to match `r` at every start position of the text, left to right. -/
def rsearchFrom (fuel : Nat) (r : Regex) : List Char → Bool
  | [] => rmatch fuel r [] (fun _ => true)
  | s@(_ :: xs) => rmatch fuel r s (fun _ => true) || rsearchFrom fuel r xs

/-- Model of `re.search(pat, raw, re.IGNORECASE)`: `none` models a
`re.error` raised at compile time, `some b` reports whether a match was
found anywhere in `raw`. -/
def reSearchCI (pat raw : String) : Option Bool :=
  match reCompile pat with
  | .error _ => none
  | .ok r => some (rsearchFrom ((pat.toList.length + 2) * (raw.toList.length + 2) * 4 + 16) r raw.toList)

/-!
Embedding of src/templates/store.py.
-/

/-- Maps a log-matching condition to a custom instruction string
(store.py, dataclass InstructionRule). -/
structure InstructionRule where
  instruction : String
  match_source : String := ""
  match_pattern : String := ""
  match_levels : List String := []
deriving Repr, DecidableEq

/-- Embedding of `InstructionRule.matches` (store.py lines 39-51): each
present condition must hold; a caught `re.error` makes the rule not
match. -/
def InstructionRule.matches (rule : InstructionRule) (source raw level : String) : Bool :=
  if rule.match_source != "" && !(containsCI source rule.match_source) then
    false
  else if !rule.match_levels.isEmpty && !((rule.match_levels.map lowerL).contains (lowerL level)) then
    false
  else if rule.match_pattern != "" then
    match reSearchCI rule.match_pattern raw with
    | none => false
    | some found => found
  else
    true

/-- A user-defined log source to collect from (store.py, dataclass
CustomSource). -/
structure CustomSource where
  name : String
  path_glob : String
  filter_pattern : String := ""
  default_level : String := "info"
deriving Repr, DecidableEq

/-- A named collection of instruction rules and optional custom sources
(store.py, dataclass Template). -/
structure Template where
  name : String
  description : String := ""
  instruction_rules : List InstructionRule := []
  custom_sources : List CustomSource := []
deriving Repr, DecidableEq

/-- Loop body of `Template.resolve_instruction` (store.py lines 94-97). -/
def resolveAux (source raw level : String) : List InstructionRule → String
  | [] => ""
  | r :: rs =>
    if r.matches source raw level then r.instruction
    else resolveAux source raw level rs

/-- Embedding of `Template.resolve_instruction` (store.py lines 92-97):
return the first matching rule's instruction, or the empty string. -/
def Template.resolve_instruction (t : Template) (source raw level : String) : String :=
  resolveAux source raw level t.instruction_rules

/-!
Embedding of src/log_formatter.py.
-/

/-- Represents a single parsed log entry (collectors/base.py); a
timestamp and the extra dict are omitted as no embedded operation reads
them. -/
structure LogEntry where
  source : String
  message : String
  raw : String
  level : String := "info"
deriving Repr, DecidableEq

/-- Static level-to-instruction table (log_formatter.py lines 10-18). -/
def INSTRUCTION_MAP : List (String × String) :=
  [("error", "Interpret the error message in the given log."),
   ("err", "Interpret the error message in the given log."),
   ("crit", "Interpret the error message in the given log."),
   ("alert", "Interpret the error message in the given log."),
   ("emerg", "Interpret the error message in the given log."),
   ("warning", "Analyze the potential issue described in this log entry."),
   ("warn", "Analyze the potential issue described in this log entry.")]

/-- Generic default instruction (log_formatter.py line 20). -/
def DEFAULT_INSTRUCTION : String :=
  "Parse and summarize the information in this log entry."

/-- Lowercase a string to a string, for the dict lookup key
`entry.level.lower()`. -/
def lowerS (s : String) : String :=
  ⟨lowerL s⟩

/-- Output record of `entry_to_loglm`. -/
structure LogLMRecord where
  instructionField : String
  inputField : String
  responseField : String
deriving Repr, DecidableEq

/-- Embedding of `entry_to_loglm` (log_formatter.py lines 23-37): the
template's rules are tried first, a falsy (empty) result falls back to
the level table, then to the generic default. -/
def entry_to_loglm (entry : LogEntry) (template : Option Template) : LogLMRecord :=
  let instruction :=
    match template with
    | some t => t.resolve_instruction entry.source entry.raw entry.level
    | none => ""
  let instruction :=
    if instruction = "" then
      ((INSTRUCTION_MAP.lookup (lowerS entry.level)).getD DEFAULT_INSTRUCTION)
    else instruction
  { instructionField := instruction
    inputField := entry.raw
    responseField := "" }

/-!
Embedding of the fixed word-boundary regex searches of
src/collectors/general.py (`_LEVEL_RE`), src/collectors/gpu.py (the
identical `_LEVEL_RE`) and src/collectors/scout.py (`_ERROR_RE`).
Each pattern is a case-insensitive alternation of literal words wrapped
in word boundaries; `re.search` on such a pattern scans start positions
left to right and, at a position, tries the alternation's backtracking
expansions in order. `tokenAt` embeds the per-position attempt and
`searchToken` the left-to-right scan.
-/

/-- Python regex word character for the word boundary assertion. -/
def isWordChar (c : Char) : Bool :=
  c.isAlphanum || c == '_'

/-- Word boundary holds before position `i` of `l`. -/
def boundaryBefore (l : List Char) (i : Nat) : Bool :=
  i == 0 ||
    (match l.get? (i - 1) with
     | some c => !isWordChar c
     | none => true)

/-- The lowercase keyword is a case-insensitive prefix of the text. -/
def ciStarts : List Char → List Char → Bool
  | [], _ => true
  | _ :: _, [] => false
  | k :: ks, c :: cs => (c.toLower == k) && ciStarts ks cs

/-- Word boundary holds right after a match of `kw` at the head of
`rest`. -/
def boundaryAfter (kw rest : List Char) : Bool :=
  match rest.drop kw.length with
  | [] => true
  | c :: _ => !isWordChar c

/-- Attempt the whole pattern at start position `i`: the leading word
boundary, then each expansion of the alternation in order, each with
its trailing word boundary. Returns the matched keyword (lowercase). -/
def tokenAt (kws : List (List Char)) (l : List Char) (i : Nat) : Option (List Char) :=
  if boundaryBefore l i then
    kws.findSome? (fun kw =>
      if ciStarts kw (l.drop i) && boundaryAfter kw (l.drop i) then some kw else none)
  else none

/-- Scan start positions `i, i+1, ...` left to right, `fuel` bounding
the number of positions tried. -/
def searchTokenGo (kws : List (List Char)) (l : List Char) : Nat → Nat → Option (List Char)
  | _, 0 => none
  | i, fuel + 1 =>
    match tokenAt kws l i with
    | some kw => some kw
    | none => searchTokenGo kws l (i + 1) fuel

/-- Embedding of `re.search` for a word-boundary alternation pattern:
leftmost match wins, alternation order decides within a position. -/
def searchToken (kws : List (List Char)) (l : List Char) : Option (List Char) :=
  searchTokenGo kws l 0 (l.length + 1)

/-- Alternatives of `_LEVEL_RE` (general.py line 7, gpu.py line 75), in
alternation order. -/
def LEVEL_KEYWORDS : List (List Char) :=
  ["emerg", "alert", "crit", "err", "warning", "notice", "info", "debug"].map String.toList

/-- Embedding of `_parse_level` (general.py lines 11-13, gpu.py lines
78-80): the lowercased first level token, defaulting to "info". -/
def _parse_level (line : String) : String :=
  match searchToken LEVEL_KEYWORDS line.toList with
  | some kw => ⟨kw⟩
  | none => "info"

/-- Backtracking expansions of the `_ERROR_RE` alternation (scout.py
lines 16-19), in the order the regex engine tries them: the optional
suffixes of crit(?:ical)?, err(?:or)? and fail(?:ed|ure)? expand to the
long forms first, then the bare stems. -/
def SCOUT_KEYWORDS : List (List Char) :=
  ["emerg", "alert", "critical", "crit", "error", "err", "failed", "failure", "fail",
   "panic", "oops", "oom", "segfault", "timeout", "refused", "denied"].map String.toList

/-- Embedding of `LogScout._matches` (scout.py lines 118-121): the
first error keyword found in the line, lowercased, or `none`. -/
def LogScout_matches (line : String) : Option String :=
  (searchToken SCOUT_KEYWORDS line.toList).map (fun kw => (⟨kw⟩ : String))

/-!
Embedding of `LogScout._discover_log_files` (scout.py lines 123-144).
The filesystem answer is an explicit input: `Except.error` models an
`OSError` from `os.scandir` on the root directory, and each directory
entry carries the facts the code queries about it (`entry.is_file()`,
`os.access(..., R_OK)`, and whether reading a small prefix as UTF-8
text succeeds rather than raising `UnicodeDecodeError`/`OSError`).
-/

/-- Suffixes of rotated or compressed files to skip (scout.py line 22). -/
def SKIP_SUFFIXES : List String :=
  [".gz", ".xz", ".bz2", ".zst", ".1", ".2", ".3", ".4"]

/-- Blocked binary accounting file names (scout.py line 23). -/
def SKIP_NAMES : List String :=
  ["btmp", "wtmp", "lastlog", "faillog"]

/-- One `os.scandir` result as the facts the discovery code queries. -/
structure DirEntry where
  name : String
  isFile : Bool
  readable : Bool
  textPrefixOk : Bool
deriving Repr, DecidableEq

/-- Python `name.endswith(s)`. -/
def endsWithL (s suffix : String) : Bool :=
  suffix.toList.isSuffixOf s.toList

/-- Embedding of `LogScout._discover_log_files`: keep regular, readable,
text-decoding direct children that are not blocked names and carry no
rotated/compressed suffix; an `OSError` on the directory yields `[]`. -/
def _discover_log_files (scan : Except Unit (List DirEntry)) (logDir : String) : List String :=
  match scan with
  | .error _ => []
  | .ok entries =>
    entries.filterMap (fun e =>
      if !e.isFile then none
      else if SKIP_NAMES.contains e.name then none
      else if SKIP_SUFFIXES.any (fun s => endsWithL e.name s) then none
      else if e.readable && e.textPrefixOk then some (logDir ++ "/" ++ e.name)
      else none)

/-!
Helper lemmas about rule resolution.
-/

/-- Resolution over rules none of which match yields the empty string. -/
lemma resolveAux_all_unmatched (source raw level : String)
    (rules : List InstructionRule)
    (h : ∀ r ∈ rules, r.matches source raw level = false) :
    resolveAux source raw level rules = "" := by
  induction rules with
  | nil => rfl
  | cons r rs ih =>
    have hr := h r (List.mem_cons_self r rs)
    simp only [resolveAux, hr, Bool.false_eq_true, if_false]
    exact ih (fun r' h' => h r' (List.mem_cons_of_mem _ h'))

/-- Resolution returns the instruction of the first matching rule,
whatever comes after it. -/
lemma resolveAux_first (source raw level : String)
    (pre : List InstructionRule) (r : InstructionRule) (post : List InstructionRule)
    (hpre : ∀ r' ∈ pre, r'.matches source raw level = false)
    (hr : r.matches source raw level = true) :
    resolveAux source raw level (pre ++ r :: post) = r.instruction := by
  induction pre with
  | nil => simp [resolveAux, hr]
  | cons a as ih =>
    have ha := hpre a (List.mem_cons_self a as)
    simp only [List.cons_append, resolveAux, ha, Bool.false_eq_true, if_false]
    exact ih (fun r' h' => hpre r' (List.mem_cons_of_mem _ h'))

/-- C1: resolution returns the instruction of the earliest rule whose
present conditions all hold for the entry, and the empty string when no
rule matches (in particular for an empty rule list); a later matching
rule never overrides an earlier one, since the result does not depend
on the rules after the first match. -/
theorem C1_resolve_first_match_wins (source raw level : String) :
    ((Template.mk "t" "" [] []).resolve_instruction source raw level = "") ∧
    (∀ t : Template,
      (∀ r ∈ t.instruction_rules, r.matches source raw level = false) →
      t.resolve_instruction source raw level = "") ∧
    (∀ (t : Template) (pre : List InstructionRule) (r : InstructionRule)
        (post : List InstructionRule),
      t.instruction_rules = pre ++ r :: post →
      (∀ r' ∈ pre, r'.matches source raw level = false) →
      r.matches source raw level = true →
      t.resolve_instruction source raw level = r.instruction) := by
  refine ⟨rfl, ?_, ?_⟩
  · intro t h
    exact resolveAux_all_unmatched source raw level t.instruction_rules h
  · intro t pre r post hsplit hpre hr
    unfold Template.resolve_instruction
    rw [hsplit]
    exact resolveAux_first source raw level pre r post hpre hr

/-- Closed instantiation of C1 at a two-rule list where both rules
match: the earlier rule's instruction is returned. -/
theorem C1_witness :
    (Template.mk "t" "" [InstructionRule.mk "first" "" "" [], InstructionRule.mk "second" "" "" []] []).resolve_instruction "src" "raw" "err" = "first" :=
  (C1_resolve_first_match_wins "src" "raw" "err").2.2
    (Template.mk "t" "" [InstructionRule.mk "first" "" "" [], InstructionRule.mk "second" "" "" []] [])
    [] (InstructionRule.mk "first" "" "" []) [InstructionRule.mk "second" "" "" []]
    (by decide) (by intro r' h'; cases h') (by decide)

/-- Boolean normal form of `InstructionRule.matches`: one conjunct per
condition dimension, an absent condition contributing `true`. -/
lemma matches_eq_and (rule : InstructionRule) (source raw level : String) :
    rule.matches source raw level =
      (((rule.match_source == "") || containsCI source rule.match_source) &&
       ((rule.match_levels.isEmpty) || (rule.match_levels.map lowerL).contains (lowerL level)) &&
       ((rule.match_pattern == "") || (reSearchCI rule.match_pattern raw == some true))) := by
  unfold InstructionRule.matches
  cases hr : reSearchCI rule.match_pattern raw with
  | none =>
    cases hs : (rule.match_source == "") <;>
    cases hc : containsCI source rule.match_source <;>
    cases hl : rule.match_levels.isEmpty <;>
    cases hm : (rule.match_levels.map lowerL).contains (lowerL level) <;>
    cases hp : (rule.match_pattern == "") <;>
    simp [bne, hs, hc, hl, hm, hp, hr]
  | some b =>
    cases b <;>
    cases hs : (rule.match_source == "") <;>
    cases hc : containsCI source rule.match_source <;>
    cases hl : rule.match_levels.isEmpty <;>
    cases hm : (rule.match_levels.map lowerL).contains (lowerL level) <;>
    cases hp : (rule.match_pattern == "") <;>
    simp [bne, hs, hc, hl, hm, hp, hr]

/-- C2: a rule matches an entry iff each of its present conditions
holds (case-insensitive source-substring containment, case-insensitive
level membership, case-insensitive regex search on the raw text), an
absent condition always holding; a rule whose only condition is
match_levels ["err", "crit"] rejects level "info" and accepts level
"crit" for any source and text. -/
theorem C2_matches_iff_present_conditions (rule : InstructionRule) (source raw level : String) :
    (rule.matches source raw level = true ↔
      ((rule.match_source = "" ∨ containsCI source rule.match_source = true) ∧
       (rule.match_levels = [] ∨ (rule.match_levels.map lowerL).contains (lowerL level) = true) ∧
       (rule.match_pattern = "" ∨ reSearchCI rule.match_pattern raw = some true))) ∧
    (InstructionRule.mk "X" "" "" ["err", "crit"]).matches source raw "info" = false ∧
    (InstructionRule.mk "X" "" "" ["err", "crit"]).matches source raw "crit" = true := by
  refine ⟨?_, ?_, ?_⟩
  · rw [matches_eq_and]
    simp [List.isEmpty_iff, and_assoc]
  · rw [matches_eq_and]
    simp
    decide
  · rw [matches_eq_and]
    simp [lowerL]

/-- Closed instantiation of C2: the levels-only rule accepts a "crit"
entry. -/
theorem C2_witness :
    (InstructionRule.mk "X" "" "" ["err", "crit"]).matches "any src" "any raw" "crit" = true :=
  (C2_matches_iff_present_conditions (InstructionRule.mk "X" "" "" ["err", "crit"]) "any src" "any raw" "crit").2.2

/-- A rule whose pattern fails to compile never matches: the caught
`re.error` makes the pattern condition fail closed. -/
lemma matches_false_of_bad_pattern (rule : InstructionRule) (source raw level : String)
    (hbad : reCompile rule.match_pattern = .error ()) :
    rule.matches source raw level = false := by
  have hpat : (rule.match_pattern == "") = false := by
    cases hpe : (rule.match_pattern == "") with
    | false => rfl
    | true =>
      exfalso
      have heq : rule.match_pattern = "" := by simpa using hpe
      rw [heq] at hbad
      have hok : reCompile "" = .ok .emp := rfl
      rw [hok] at hbad
      exact Except.noConfusion hbad
  have hsearch : reSearchCI rule.match_pattern raw = none := by
    unfold reSearchCI
    rw [hbad]
  rw [matches_eq_and]
  simp [hsearch, hpat]

/-- C3: an invalid rule regex — for example the unbalanced pattern
"(" — is a compile error, and such a rule never matches any entry and
never blocks evaluation: resolution over a list starting with it equals
resolution over the remaining rules. -/
theorem C3_invalid_regex_fails_closed (source raw level : String) :
    (reCompile "(" = .error ()) ∧
    (∀ rule : InstructionRule, reCompile rule.match_pattern = .error () →
      rule.matches source raw level = false) ∧
    (∀ (rule : InstructionRule) (rest : List InstructionRule),
      reCompile rule.match_pattern = .error () →
      resolveAux source raw level (rule :: rest) = resolveAux source raw level rest) := by
  refine ⟨rfl, fun rule hbad => matches_false_of_bad_pattern rule source raw level hbad, ?_⟩
  intro rule rest hbad
  have h := matches_false_of_bad_pattern rule source raw level hbad
  simp only [resolveAux, h, Bool.false_eq_true, if_false]

/-- Closed instantiation of C3 at the pattern "(": the rule does not
match and resolution falls through to the rest of the list. -/
theorem C3_witness :
    (InstructionRule.mk "bad" "" "(" []).matches "s" "x err y" "info" = false ∧
    resolveAux "s" "x err y" "info"
        [InstructionRule.mk "bad" "" "(" [], InstructionRule.mk "nxt" "" "" []] =
      resolveAux "s" "x err y" "info" [InstructionRule.mk "nxt" "" "" []] :=
  ⟨(C3_invalid_regex_fails_closed "s" "x err y" "info").2.1
      (InstructionRule.mk "bad" "" "(" []) (by rfl),
   (C3_invalid_regex_fails_closed "s" "x err y" "info").2.2
      (InstructionRule.mk "bad" "" "(" []) [InstructionRule.mk "nxt" "" "" []] (by rfl)⟩

/-- C9: when the first matching rule carries an empty instruction, the
formatter's output is identical to the no-match case — the level-based
default applies and an empty instruction cannot be forced through a
rule. -/
theorem C9_empty_rule_instruction_falls_back (entry : LogEntry) (t : Template)
    (pre : List InstructionRule) (r : InstructionRule) (post : List InstructionRule)
    (hsplit : t.instruction_rules = pre ++ r :: post)
    (hpre : ∀ r' ∈ pre, r'.matches entry.source entry.raw entry.level = false)
    (hr : r.matches entry.source entry.raw entry.level = true)
    (hempty : r.instruction = "") :
    entry_to_loglm entry (some t) = entry_to_loglm entry none := by
  have hres : t.resolve_instruction entry.source entry.raw entry.level = "" := by
    unfold Template.resolve_instruction
    rw [hsplit, resolveAux_first entry.source entry.raw entry.level pre r post hpre hr, hempty]
  simp only [entry_to_loglm, hres]

/-- Closed instantiation of C9: a matched rule with empty instruction
yields the same record as having no template at all. -/
theorem C9_witness :
    entry_to_loglm (LogEntry.mk "s" "m" "raw" "err")
        (some (Template.mk "t" "" [InstructionRule.mk "" "" "" []] [])) =
      entry_to_loglm (LogEntry.mk "s" "m" "raw" "err") none :=
  C9_empty_rule_instruction_falls_back (LogEntry.mk "s" "m" "raw" "err")
    (Template.mk "t" "" [InstructionRule.mk "" "" "" []] [])
    [] (InstructionRule.mk "" "" "" []) []
    (by decide) (by intro r' h'; cases h') (by decide) (by decide)

/-- C4: the instruction attached to an entry follows the two-tier
fallback exactly — a non-empty rule resolution wins, otherwise the
static level table is consulted at the lowercased level, and the
generic default is used only when the table does not know the level. -/
theorem C4_two_tier_fallback (entry : LogEntry) (t : Template) :
    (t.resolve_instruction entry.source entry.raw entry.level ≠ "" →
      (entry_to_loglm entry (some t)).instructionField =
        t.resolve_instruction entry.source entry.raw entry.level) ∧
    (t.resolve_instruction entry.source entry.raw entry.level = "" →
      (entry_to_loglm entry (some t)).instructionField =
        ((INSTRUCTION_MAP.lookup (lowerS entry.level)).getD DEFAULT_INSTRUCTION)) ∧
    ((entry_to_loglm entry none).instructionField =
      ((INSTRUCTION_MAP.lookup (lowerS entry.level)).getD DEFAULT_INSTRUCTION)) ∧
    (∀ v, INSTRUCTION_MAP.lookup (lowerS entry.level) = some v →
      t.resolve_instruction entry.source entry.raw entry.level = "" →
      (entry_to_loglm entry (some t)).instructionField = v) ∧
    (INSTRUCTION_MAP.lookup (lowerS entry.level) = none →
      t.resolve_instruction entry.source entry.raw entry.level = "" →
      (entry_to_loglm entry (some t)).instructionField = DEFAULT_INSTRUCTION) := by
  refine ⟨?_, ?_, ?_, ?_, ?_⟩
  · intro hne
    simp only [entry_to_loglm, if_neg hne]
  · intro hres
    simp [entry_to_loglm, hres]
  · simp [entry_to_loglm]
  · intro v hv hres
    simp [entry_to_loglm, hres, hv]
  · intro hnone hres
    simp [entry_to_loglm, hres, hnone]

/-- Closed instantiation of C4: with no matching rule, a recognized
level "err" takes its table instruction and an unrecognized level
"notice" takes the generic default. -/
theorem C4_witness :
    ((entry_to_loglm (LogEntry.mk "s" "m" "raw" "err") (some (Template.mk "t" "" [] []))).instructionField =
      "Interpret the error message in the given log.") ∧
    ((entry_to_loglm (LogEntry.mk "s" "m" "raw" "notice") (some (Template.mk "t" "" [] []))).instructionField =
      DEFAULT_INSTRUCTION) :=
  ⟨(C4_two_tier_fallback (LogEntry.mk "s" "m" "raw" "err") (Template.mk "t" "" [] [])).2.2.2.1
      "Interpret the error message in the given log." (by decide) (by decide),
   (C4_two_tier_fallback (LogEntry.mk "s" "m" "raw" "notice") (Template.mk "t" "" [] [])).2.2.2.2
      (by decide) (by decide)⟩

/-!
Helper lemmas about the word-boundary token search.
-/

/-- Inversion for a guarded `findSome?`: a hit is a member satisfying
the guard. -/
lemma findSome?_guard_inv {α : Type} {p : α → Bool} {kws : List α} {kw : α}
    (h : kws.findSome? (fun x => if p x then some x else none) = some kw) :
    kw ∈ kws ∧ p kw = true := by
  induction kws with
  | nil => simp [List.findSome?] at h
  | cons a rest ih =>
    simp only [List.findSome?] at h
    by_cases hp : p a = true
    · rw [if_pos hp] at h
      simp only [] at h
      cases h
      exact ⟨List.mem_cons_self _ _, hp⟩
    · rw [if_neg hp] at h
      simp only [] at h
      obtain ⟨hm, hq⟩ := ih h
      exact ⟨List.mem_cons_of_mem a hm, hq⟩

/-- Inversion for `tokenAt`: the keyword found is in the alternation
and matches case-insensitively at the position. -/
lemma tokenAt_inv {kws : List (List Char)} {l : List Char} {i : Nat} {kw : List Char}
    (h : tokenAt kws l i = some kw) :
    kw ∈ kws ∧ ciStarts kw (l.drop i) = true := by
  unfold tokenAt at h
  split at h
  · obtain ⟨hm, hq⟩ := findSome?_guard_inv h
    exact ⟨hm, (Bool.and_eq_true _ _ ▸ hq).1⟩
  · exact absurd h (by simp)

/-- A nonempty keyword cannot start a match in empty text. -/
lemma ciStarts_nil_of_ne {kw : List Char} (h : kw ≠ []) : ciStarts kw [] = false := by
  cases kw with
  | nil => exact absurd rfl h
  | cons a as => rfl

/-- A token found by `tokenAt` lies inside the text when every keyword
is nonempty. -/
lemma tokenAt_lt_length {kws : List (List Char)} {l : List Char} {i : Nat} {kw : List Char}
    (hne : ∀ k ∈ kws, k ≠ []) (h : tokenAt kws l i = some kw) : i < l.length := by
  by_contra hge
  obtain ⟨hm, hs⟩ := tokenAt_inv h
  have hdrop : l.drop i = [] := List.drop_eq_nil_of_le (by omega)
  rw [hdrop] at hs
  rw [ciStarts_nil_of_ne (hne kw hm)] at hs
  exact Bool.false_ne_true hs

/-- The scan yields nothing when no position carries a token. -/
lemma searchTokenGo_eq_none (kws : List (List Char)) (l : List Char) :
    ∀ (fuel i : Nat), (∀ m, i ≤ m → tokenAt kws l m = none) →
      searchTokenGo kws l i fuel = none := by
  intro fuel
  induction fuel with
  | zero => intro i _; rfl
  | succ n ih =>
    intro i h
    have h0 := h i (le_refl i)
    simp only [searchTokenGo, h0]
    exact ih (i + 1) (fun m hm => h m (by omega))

/-- The scan yields the token of the first position that carries one. -/
lemma searchTokenGo_eq_some {kws : List (List Char)} {l : List Char} {j : Nat}
    {kw : List Char} (hj : tokenAt kws l j = some kw) :
    ∀ (fuel i : Nat), i ≤ j → j < i + fuel →
      (∀ m, i ≤ m → m < j → tokenAt kws l m = none) →
      searchTokenGo kws l i fuel = some kw := by
  intro fuel
  induction fuel with
  | zero => intro i h1 h2 _; exact absurd h2 (by omega)
  | succ n ih =>
    intro i h1 h2 h3
    by_cases heq : i = j
    · subst heq
      simp only [searchTokenGo, hj]
    · have hlt : i < j := lt_of_le_of_ne h1 heq
      have h0 : tokenAt kws l i = none := h3 i (le_refl i) hlt
      simp only [searchTokenGo, h0]
      exact ih (i + 1) (by omega) (by omega) (fun m hm1 hm2 => h3 m (by omega) hm2)

/-- Any token the scan yields is carried by some position. -/
lemma searchTokenGo_some_inv (kws : List (List Char)) (l : List Char) :
    ∀ (fuel i : Nat) (kw : List Char), searchTokenGo kws l i fuel = some kw →
      ∃ j, tokenAt kws l j = some kw := by
  intro fuel
  induction fuel with
  | zero => intro i kw h; exact absurd h (by simp [searchTokenGo])
  | succ n ih =>
    intro i kw h
    simp only [searchTokenGo] at h
    cases h0 : tokenAt kws l i with
    | some kw0 =>
      rw [h0] at h
      simp only [] at h
      cases h
      exact ⟨i, h0⟩
    | none =>
      rw [h0] at h
      simp only [] at h
      exact ih (i + 1) kw h

/-- C5: level classification returns "info" when the line carries no
whole-word level token; when tokens are present it returns the leftmost
one, normalized to lowercase, and any token found belongs to the closed
level enumeration. Purity is immediate: the embedding is a function of
the line alone. -/
theorem C5_parse_level_leftmost_token (line : String) :
    ((∀ j, tokenAt LEVEL_KEYWORDS line.toList j = none) → _parse_level line = "info") ∧
    (∀ j kw, tokenAt LEVEL_KEYWORDS line.toList j = some kw →
      (∀ m, m < j → tokenAt LEVEL_KEYWORDS line.toList m = none) →
      _parse_level line = (⟨kw⟩ : String)) ∧
    (∀ j kw, tokenAt LEVEL_KEYWORDS line.toList j = some kw → kw ∈ LEVEL_KEYWORDS) := by
  refine ⟨?_, ?_, ?_⟩
  · intro h
    have hnone := searchTokenGo_eq_none LEVEL_KEYWORDS line.toList
      (line.toList.length + 1) 0 (fun m _ => h m)
    simp only [_parse_level, searchToken, hnone]
  · intro j kw hj hmin
    have hne : ∀ k ∈ LEVEL_KEYWORDS, k ≠ [] := by decide
    have hlt : j < line.toList.length := tokenAt_lt_length hne hj
    have hsome := searchTokenGo_eq_some hj (line.toList.length + 1) 0
      (Nat.zero_le j) (by omega) (fun m _ hm => hmin m hm)
    simp only [_parse_level, searchToken, hsome]
  · intro j kw hj
    exact (tokenAt_inv hj).1

/-- Closed instantiation of C5: in "boot err found" the token "err" at
position 5 is the leftmost level token and is returned. -/
theorem C5_witness :
    _parse_level "boot err found" = "err" :=
  (C5_parse_level_leftmost_token "boot err found").2.1 5 ['e', 'r', 'r']
    (by decide) (by decide)

/-- C6 as stated is false: the scout's regex makes the suffixes of
fail(?:ed|ure)? optional, so the bare stem "fail" is matched and
returned even though it is not in the claim's fixed keyword set. -/
theorem C6_counterexample :
    LogScout_matches "login fail detected" = some "fail" ∧
    ("fail" : String) ∉ (["emerg", "alert", "critical", "crit", "error", "err", "failed",
      "failure", "panic", "oops", "oom", "segfault", "timeout", "refused", "denied"] :
        List String) := by
  exact ⟨by decide, by decide⟩

/-- C6 (amended: the fixed keyword set additionally contains the bare
stem "fail"): every returned keyword is in the expanded set, a line
with no token at any position yields none, the leftmost token is
returned lowercased, and "2024 ERROR disk failed" yields "error". -/
theorem C6_scout_keyword_scan (line : String) :
    (∀ kw, LogScout_matches line = some kw → kw.toList ∈ SCOUT_KEYWORDS) ∧
    ((∀ j, tokenAt SCOUT_KEYWORDS line.toList j = none) → LogScout_matches line = none) ∧
    (∀ j kw, tokenAt SCOUT_KEYWORDS line.toList j = some kw →
      (∀ m, m < j → tokenAt SCOUT_KEYWORDS line.toList m = none) →
      LogScout_matches line = some (⟨kw⟩ : String)) ∧
    LogScout_matches "2024 ERROR disk failed" = some "error" := by
  refine ⟨?_, ?_, ?_, by decide⟩
  · intro kw h
    unfold LogScout_matches at h
    cases hs : searchToken SCOUT_KEYWORDS line.toList with
    | none => rw [hs] at h; exact absurd h (by simp)
    | some kwL =>
      rw [hs] at h
      obtain ⟨j, hj⟩ := searchTokenGo_some_inv SCOUT_KEYWORDS line.toList
        (line.toList.length + 1) 0 kwL hs
      have hmem := (tokenAt_inv hj).1
      have hkw : kw = (⟨kwL⟩ : String) := (Option.some.inj h).symm
      rw [hkw]
      exact hmem
  · intro h
    have hnone := searchTokenGo_eq_none SCOUT_KEYWORDS line.toList
      (line.toList.length + 1) 0 (fun m _ => h m)
    simp only [LogScout_matches, searchToken, hnone]
    rfl
  · intro j kw hj hmin
    have hne : ∀ k ∈ SCOUT_KEYWORDS, k ≠ [] := by decide
    have hlt : j < line.toList.length := tokenAt_lt_length hne hj
    have hsome := searchTokenGo_eq_some hj (line.toList.length + 1) 0
      (Nat.zero_le j) (by omega) (fun m _ hm => hmin m hm)
    simp only [LogScout_matches, searchToken, hsome]
    rfl

/-- Closed instantiation of C6: the leftmost token of "a fail b" is the
bare stem "fail", which the scan returns. -/
theorem C6_witness :
    LogScout_matches "a fail b" = some "fail" :=
  (C6_scout_keyword_scan "a fail b").2.2.1 2 ['f', 'a', 'i', 'l']
    (by decide) (by decide)

/-- C10: the noteworthy scan and the level classifier are independent
pattern sets that disagree on a line whose only cue is the word
"ERROR" — the scout flags it with keyword "error" while the level
classifier, whose closed enumeration only has the whole word "err",
assigns the default level "info". -/
theorem C10_scout_and_level_disagree :
    LogScout_matches "2024 ERROR on disk" = some "error" ∧
    _parse_level "2024 ERROR on disk" = "info" := by
  exact ⟨by decide, by decide⟩

/-- C7: discovery returns only paths of regular, readable, text-probed
direct children whose name is neither blocked nor carries a
rotated/compressed suffix, and an error on the root directory itself
yields an empty result rather than propagating. -/
theorem C7_discovery_exclusions (logDir : String) :
    (_discover_log_files (.error ()) logDir = []) ∧
    (∀ (entries : List DirEntry) (p : String),
      p ∈ _discover_log_files (.ok entries) logDir →
      ∃ e, e ∈ entries ∧ p = logDir ++ "/" ++ e.name ∧
        e.isFile = true ∧ e.readable = true ∧ e.textPrefixOk = true ∧
        SKIP_NAMES.contains e.name = false ∧
        (∀ s ∈ SKIP_SUFFIXES, endsWithL e.name s = false)) := by
  refine ⟨rfl, ?_⟩
  intro entries p hp
  unfold _discover_log_files at hp
  rw [List.mem_filterMap] at hp
  obtain ⟨e, he, hfe⟩ := hp
  refine ⟨e, he, ?_⟩
  split at hfe
  · exact absurd hfe (by simp)
  · split at hfe
    · exact absurd hfe (by simp)
    · split at hfe
      · exact absurd hfe (by simp)
      · split at hfe
        · rename_i h1 h2 h3 h4
          have hfile : e.isFile = true := by
            simpa using h1
          have hname : SKIP_NAMES.contains e.name = false := by
            simpa using h2
          have hsuffix : ∀ s ∈ SKIP_SUFFIXES, endsWithL e.name s = false := by
            have h3' : SKIP_SUFFIXES.any (fun s => endsWithL e.name s) = false := by
              simpa using h3
            intro s hs
            have := List.any_eq_false.mp h3'
            simpa using this s hs
          have hrt : e.readable = true ∧ e.textPrefixOk = true := by
            simpa [Bool.and_eq_true] using h4
          exact ⟨(Option.some.inj hfe).symm, hfile, hrt.1, hrt.2, hname, hsuffix⟩
        · exact absurd hfe (by simp)

/-- Closed instantiation of C7: with a blocked name, a rotated archive
and an unreadable file present as direct children, only the plain
readable text file is returned. -/
theorem C7_witness :
    ∃ e, e ∈ [DirEntry.mk "btmp" true true true, DirEntry.mk "syslog.1" true true true,
        DirEntry.mk "old.gz" true true true, DirEntry.mk "secret" true false true,
        DirEntry.mk "syslog" true true true] ∧
      ("/var/log/syslog" : String) = "/var/log" ++ "/" ++ e.name ∧
      e.isFile = true ∧ e.readable = true ∧ e.textPrefixOk = true ∧
      SKIP_NAMES.contains e.name = false ∧
      (∀ s ∈ SKIP_SUFFIXES, endsWithL e.name s = false) :=
  (C7_discovery_exclusions "/var/log").2
    [DirEntry.mk "btmp" true true true, DirEntry.mk "syslog.1" true true true,
     DirEntry.mk "old.gz" true true true, DirEntry.mk "secret" true false true,
     DirEntry.mk "syslog" true true true]
    "/var/log/syslog" (by decide)
